import Mathlib

set_option autoImplicit false

/-!
Shallow embedding of the LRL reinforcement-learning layers
(src/LRL/A2C.py, src/LRL/replayBuffer.py, src/LRL/targetDQN.py)
and proofs about them.
-/

namespace LRL

open TrivSqZeroExt

/-! ### Definitions -/

/--
Backward-recursion helper for `A2C.compute_returns` (src/LRL/A2C.py lines 87-94).
`retD gamma rewards dones values T k` is the value the loop stores in
`returns[T - k]`: `retD _ _ _ v T 0 = v T` models `self.returns[-1] = values[-1]`,
and the successor case models one iteration
`self.returns[step] = self.returns[step + 1] * self.gamma * (1 - self.dones[step + 1]) + self.rewards[step]`
at `step = T - (k+1)`.  Polymorphic over a commutative ring so that the same
translation can be run on rationals and on dual numbers (values carry gradients
in `A2C.update`, rewards and dones are plain stored tensors).
-/
def retD {R : Type} [CommRing R] (gamma : R) (rewards dones values : Nat → R) (T : Nat) : Nat → R
  | 0 => values T
  | k + 1 => retD gamma rewards dones values T k * gamma * (1 - dones (T - k)) + rewards (T - (k + 1))

/--
`computeReturns gamma rewards dones values T t` is `self.returns[t]` after
`A2C.compute_returns(values)` has run with horizon `T = self.rewards.size(0)`
(slots `0..T-1` of rewards, `1..T` of dones, bootstrap `values[T]`).
For `t ≥ T` it is the bootstrap slot `returns[T] = values[T]`.
-/
def computeReturns {R : Type} [CommRing R] (gamma : R) (rewards dones values : Nat → R) (T t : Nat) : R :=
  retD gamma rewards dones values T (T - t)

/--
Imperative rendering of the same loop: the `returns` buffer starts as the stale
tensor `r0` with slot `T` overwritten by `values[T]` (`self.returns[-1] = values[-1]`),
then the `for step in reversed(range(T))` loop updates one slot per iteration.
-/
def computeReturnsLoop (gamma : ℚ) (rewards dones values : Nat → ℚ) (r0 : Nat → ℚ) (T : Nat) : Nat → ℚ :=
  (List.range T).reverse.foldl
    (fun ret step => Function.update ret step (ret (step + 1) * gamma * (1 - dones (step + 1)) + rewards step))
    (Function.update r0 T (values T))

/-- Concrete rewards `[1, 1, 1]` of the hand-computed 3-step example in the spec. -/
def exRewards : Nat → ℚ := fun t => [1, 1, 1].getD t 0

/-- All-zero done flags. -/
def exDones0 : Nat → ℚ := fun _ => 0

/-- Done flags that are zero except at the final slot `3` of the 3-step example. -/
def exDonesLast : Nat → ℚ := fun t => if t = 3 then 1 else 0

/-- Constant bootstrap value `5` of the hand-computed example. -/
def exValues : Nat → ℚ := fun _ => 5

/--
Property of claim C1: `compute_returns` satisfies the backward recursion
`returns[T] = values[T]`, `returns[t] = returns[t+1] * gamma * (1 - dones[t+1]) + rewards[t]`,
reduces to the standard discounted sum when the done flags in `1..T` vanish, and
matches the hand-computed 3-step example (`rewards [1,1,1]`, bootstrap value `5`,
`gamma = 1/2`) both with no done flag set (bootstrap kept: returns
`19/8, 11/4, 7/2`) and with the final done flag set (bootstrap masked: returns
`7/4, 3/2, 1`).
-/
def C1Prop (gamma : ℚ) (rewards dones values : Nat → ℚ) (T : Nat) : Prop :=
  (computeReturns gamma rewards dones values T T = values T
    ∧ ∀ t, t < T →
        computeReturns gamma rewards dones values T t
          = computeReturns gamma rewards dones values T (t + 1) * gamma * (1 - dones (t + 1)) + rewards t)
  ∧ (∀ t, t ≤ T → (∀ s, t < s → s ≤ T → dones s = 0) →
      computeReturns gamma rewards dones values T t
        = (∑ s ∈ Finset.Ico t T, gamma ^ (s - t) * rewards s) + gamma ^ (T - t) * values T)
  ∧ (computeReturns (1/2) exRewards exDones0 exValues 3 0 = 19/8
      ∧ computeReturns (1/2) exRewards exDones0 exValues 3 1 = 11/4
      ∧ computeReturns (1/2) exRewards exDones0 exValues 3 2 = 7/2
      ∧ computeReturns (1/2) exRewards exDonesLast exValues 3 0 = 7/4
      ∧ computeReturns (1/2) exRewards exDonesLast exValues 3 1 = 3/2
      ∧ computeReturns (1/2) exRewards exDonesLast exValues 3 2 = 1)

/--
Stored transition of `ReplayBufferAgent` (src/LRL/replayBuffer.py line 27/29):
the 5-tuple `(state, action, reward, next_state, done)` that `memorize` writes
into the buffer.  `state`/`next_state` carry the leading batch-like axis added
by `np.expand_dims(·, 0)`.
-/
structure Transition (S A : Type) where
  state : List S
  action : A
  reward : ℚ
  next_state : List S
  done : Bool
  deriving DecidableEq

/-- `np.expand_dims(x, 0)`: wrap the array in one leading axis. -/
def expandDims {S : Type} (x : S) : List S := [x]

/--
Buffer state of `ReplayBufferAgent` (src/LRL/replayBuffer.py lines 18-19):
the list `self.buffer` and the write cursor `self.pos`.
-/
structure RBState (A : Type) where
  buffer : List A
  pos : Nat
  deriving DecidableEq

/-- `ReplayBufferAgent.__len__` (lines 53-54): current occupancy `len(self.buffer)`. -/
def rbLength {A : Type} (st : RBState A) : Nat := st.buffer.length

/--
Slot mechanics of `ReplayBufferAgent.memorize` (lines 26-31): append while
`len(self) < capacity`, otherwise overwrite the slot at `pos`; then advance
`pos = (pos + 1) % capacity`.
-/
def bufferWrite (cap : Nat) {A : Type} (st : RBState A) (x : A) : RBState A :=
  if rbLength st < cap then
    ⟨st.buffer ++ [x], (st.pos + 1) % cap⟩
  else
    ⟨st.buffer.set st.pos x, (st.pos + 1) % cap⟩

/--
`ReplayBufferAgent.memorize(state, action, reward, next_state, done, died)`
(lines 21-31): expands `state` and `next_state` with a leading axis and writes
the 5-tuple `(state, action, reward, next_state, done)`; the `died` argument is
accepted but does not appear in the stored tuple.
-/
def memorize (cap : Nat) {S A : Type} (st : RBState (Transition S A))
    (state : S) (action : A) (reward : ℚ) (next_state : S) (done died : Bool) :
    RBState (Transition S A) :=
  bufferWrite cap st ⟨expandDims state, action, reward, expandDims next_state, done⟩

/-- Fold of `bufferWrite` over a list of already-built transitions. -/
def memFold (cap : Nat) {A : Type} (st : RBState A) (ts : List A) : RBState A :=
  ts.foldl (bufferWrite cap) st

/-- One raw 6-argument input to `memorize`/`see`. -/
abbrev RawInput (S A : Type) := S × A × ℚ × S × Bool × Bool

/-- The 5-tuple `memorize` builds from one raw input (the `died` slot is dropped). -/
def toStored {S A : Type} (i : RawInput S A) : Transition S A :=
  ⟨expandDims i.1, i.2.1, i.2.2.1, expandDims i.2.2.2.1, i.2.2.2.2.1⟩

/-- A sequence of `memorize` calls, one per raw input. -/
def memorizeAll (cap : Nat) {S A : Type} (st : RBState (Transition S A))
    (inputs : List (RawInput S A)) : RBState (Transition S A) :=
  inputs.foldl
    (fun s i => memorize cap s i.1 i.2.1 i.2.2.1 i.2.2.2.1 i.2.2.2.2.1 i.2.2.2.2.2) st

/--
`ReplayBufferAgent.see` (lines 33-35): calls `memorize` with all six arguments,
then delegates to the base class.  The base layer is abstracted as a function
`baseSee` acting on its own state component.
-/
def rbSee (cap : Nat) {S A B : Type} (baseSee : S → A → ℚ → S → Bool → Bool → B → B)
    (st : RBState (Transition S A) × B)
    (state : S) (action : A) (reward : ℚ) (next_state : S) (done died : Bool) :
    RBState (Transition S A) × B :=
  (memorize cap st.1 state action reward next_state done died,
   baseSee state action reward next_state done died st.2)

/-- Error message of `random.sample` when the request exceeds the population. -/
def samplingError : String := "Sample larger than population or is negative"

/--
`ReplayBufferAgent.sample(batch_size)` (lines 37-48).  The randomness of
`random.sample(self.buffer, batch_size)` is modelled by the index list `pick`
(the indices the library chooses); `random.sample` raises when `batch_size`
exceeds the population.  On success the method returns the selected
transitions, a weights vector of ones, and leaves the buffer state untouched
(returned unchanged as the third component).
-/
def sample {A : Type} (st : RBState A) (batchSize : Nat) (pick : List Nat) (x0 : A) :
    Except String (List A × List ℚ × RBState A) :=
  if rbLength st < batchSize then Except.error samplingError
  else Except.ok (pick.map (fun i => st.buffer.getD i x0), List.replicate batchSize 1, st)

/--
Contract of the index list produced by `random.sample` on a population of size
`n`: `batchSize` pairwise-distinct indices, each below `n`.
-/
def ValidPick (pick : List Nat) (n batchSize : Nat) : Prop :=
  pick.length = batchSize ∧ pick.Nodup ∧ ∀ i ∈ pick, i < n

/--
Property of claim C2: after `cap + k` memorizations from an empty buffer the
occupancy is `cap`, the cursor is `k % cap`, and the buffer holds exactly the
most recent `cap` stored transitions in temporal order starting from slot
`pos`; a single write appends while below capacity and otherwise overwrites
slot `pos`, advancing `pos` circularly.
-/
def C2Prop {S A : Type} (cap k : Nat) (inputs : List (RawInput S A)) : Prop :=
  (rbLength (memorizeAll cap ⟨[], 0⟩ inputs) = cap
    ∧ (memorizeAll cap ⟨[], 0⟩ inputs).pos = k % cap
    ∧ ∀ i, i < cap →
        (memorizeAll cap ⟨[], 0⟩ inputs).buffer[((memorizeAll cap ⟨[], 0⟩ inputs).pos + i) % cap]?
          = (inputs.map toStored)[k + i]?)
  ∧ (∀ st : RBState (Transition S A), ∀ x, rbLength st < cap →
      bufferWrite cap st x = ⟨st.buffer ++ [x], (st.pos + 1) % cap⟩)
  ∧ (∀ st : RBState (Transition S A), ∀ x, ¬ rbLength st < cap →
      bufferWrite cap st x = ⟨st.buffer.set st.pos x, (st.pos + 1) % cap⟩)

/--
Property of claim C7: `sample` fails with the insufficient-data error exactly
when `batch_size` exceeds the occupancy; otherwise, for any index list
satisfying the contract of `random.sample`, it returns `batch_size`
transitions drawn at pairwise-distinct in-range indices, a weights vector of
`batch_size` ones, and the buffer state unchanged.
-/
def C7Prop {A : Type} (st : RBState A) (batchSize : Nat) (pick : List Nat) (x0 : A) : Prop :=
  (sample st batchSize pick x0 = Except.error samplingError ↔ rbLength st < batchSize)
  ∧ (ValidPick pick (rbLength st) batchSize → batchSize ≤ rbLength st →
      sample st batchSize pick x0
          = Except.ok (pick.map (fun i => st.buffer.getD i x0), List.replicate batchSize 1, st)
        ∧ (pick.map (fun i => st.buffer.getD i x0)).length = batchSize
        ∧ pick.Nodup
        ∧ (∀ q ∈ pick, q < rbLength st)
        ∧ (List.replicate batchSize (1 : ℚ)).length = batchSize
        ∧ ∀ w ∈ List.replicate batchSize (1 : ℚ), w = 1)

/--
Observable state of `TargetQAgent` (src/LRL/targetDQN.py): the frame counter
`frames_done` kept by the base `Agent`, the online Q-network parameters and the
target-network parameters.
-/
structure TQState (P : Type) where
  frames : Nat
  online : P
  target : P
  deriving DecidableEq

/-- `TargetQAgent.unfreeze` (lines 24-26): hard sync, copy the online
parameters into the target network. -/
def unfreeze {P : Type} (st : TQState P) : TQState P := ⟨st.frames, st.online, st.online⟩

/--
`TargetQAgent.see` (lines 28-32).  The call first delegates to
`super().see(...)`; that part is modelled from the spec: the base `Agent`
advances `frames_done` by `num_envs` per call, and the Q-learning layers below
may replace the online parameters with an arbitrary `newOnline`.  Afterwards
the layer checks `frames_done % target_update < num_envs` and hard-syncs on
success.
-/
def tqSee {P : Type} (targetUpdate numEnvs : Nat) (newOnline : P) (st : TQState P) : TQState P :=
  let st1 : TQState P := ⟨st.frames + numEnvs, newOnline, st.target⟩
  if st1.frames % targetUpdate < numEnvs then unfreeze st1 else st1

/-- A run of consecutive `see` calls, one online-parameter value per call. -/
def tqRun {P : Type} (targetUpdate numEnvs : Nat) (ps : List P) (st : TQState P) : TQState P :=
  ps.foldl (fun s p => tqSee targetUpdate numEnvs p s) st

/--
Property of claim C3, with `U = target_update` and `E = num_envs`: at the
`n`-th call (frames go from `(n-1)*E` to `n*E`) the sync condition fires
exactly when a multiple of `U` was crossed; each multiple of `U` is crossed at
exactly one call; when the condition fires the post-state has target = online,
otherwise the target is unchanged while the online parameters move; and a run
with no firing call leaves the target untouched.
-/
def C3Prop (U E : Nat) : Prop :=
  (∀ n, 1 ≤ n → ((n * E) % U < E ↔ ∃ m, 1 ≤ m ∧ (n - 1) * E < m * U ∧ m * U ≤ n * E))
  ∧ (∀ m, 1 ≤ m → ∃! n, 1 ≤ n ∧ (n - 1) * E < m * U ∧ m * U ≤ n * E)
  ∧ (∀ (P : Type) (p q r : P) (n : Nat), 1 ≤ n →
      tqSee U E p ⟨(n - 1) * E, q, r⟩
        = if (n * E) % U < E then ⟨n * E, p, p⟩ else ⟨n * E, p, r⟩)
  ∧ (∀ (P : Type) (ps : List P) (st : TQState P),
      (∀ i, i < ps.length → ¬ ((st.frames + (i + 1) * E) % U < E)) →
      (tqRun U E ps st).target = st.target)

/--
Bookkeeping state of the A2C layer (src/LRL/A2C.py): the rollout step counter
`self.step` and the three loss logger channels; `updates` counts completed
`update()` invocations.
-/
structure A2CState where
  step : Nat
  updates : Nat
  actorLog : List ℚ
  criticLog : List ℚ
  entropyLog : List ℚ
  deriving DecidableEq

/--
Logging effect of `A2C.update` (lines 96-126): one synchronous optimization
step appends one scalar to each of the `actor_loss`, `critic_loss` and
`entropy_loss` logger channels.  The scalar values of the `i`-th update are
supplied by the oracle `losses`, because they depend on the network state; the
loss expressions themselves are modelled separately below.
-/
def a2cUpdate (losses : Nat → ℚ × ℚ × ℚ) (st : A2CState) : A2CState :=
  ⟨st.step, st.updates + 1,
    st.actorLog ++ [(losses st.updates).1],
    st.criticLog ++ [(losses st.updates).2.1],
    st.entropyLog ++ [(losses st.updates).2.2]⟩

/--
Counter-and-update behavior of `A2C.see` (lines 70-85): after the rollout
buffers are written, `self.step = (self.step + 1) % self.rollout`, and when
`step` wraps to 0 the layer invokes `update()`.
-/
def a2cSee (rollout : Nat) (losses : Nat → ℚ × ℚ × ℚ) (st : A2CState) : A2CState :=
  let st1 : A2CState := { st with step := (st.step + 1) % rollout }
  if st1.step = 0 then a2cUpdate losses st1 else st1

/-- `n` consecutive calls to `A2C.see`. -/
def a2cRun (rollout : Nat) (losses : Nat → ℚ × ℚ × ℚ) (st : A2CState) : Nat → A2CState
  | 0 => st
  | n + 1 => a2cSee rollout losses (a2cRun rollout losses st n)

/--
Property of claim C4: starting from `step = 0`, the first `R - 1` calls only
advance the step counter; after exactly `R` calls exactly one `update()` has
run, the step counter is back to 0, and each loss channel gained exactly one
entry; moreover a single `see` triggers an update precisely when the step
counter wraps to 0.
-/
def C4Prop (R : Nat) (losses : Nat → ℚ × ℚ × ℚ) (st : A2CState) : Prop :=
  (∀ n, n < R → a2cRun R losses st n = { st with step := n })
  ∧ (a2cRun R losses st R).step = 0
  ∧ (a2cRun R losses st R).updates = st.updates + 1
  ∧ (a2cRun R losses st R).actorLog = st.actorLog ++ [(losses st.updates).1]
  ∧ (a2cRun R losses st R).criticLog = st.criticLog ++ [(losses st.updates).2.1]
  ∧ (a2cRun R losses st R).entropyLog = st.entropyLog ++ [(losses st.updates).2.2]
  ∧ (∀ st2 : A2CState,
      (a2cSee R losses st2).updates = st2.updates + if (st2.step + 1) % R = 0 then 1 else 0)

/--
Dual numbers over ℚ: a tensor entry `value + ε · derivative`, tracking the
forward value together with its sensitivity to one scalar network parameter.
This is the autograd model used to state which parts of `A2C.update` are
detached from the gradient.
-/
abbrev DQ := DualNumber ℚ

/-- Numeric value of a tensor entry. -/
def dval (x : DQ) : ℚ := x.fst

/-- Derivative of a tensor entry with respect to the network parameter. -/
def dgrad (x : DQ) : ℚ := x.snd

/-- torch `.detach()`: keep the value, sever the gradient. -/
def detach (x : DQ) : DQ := inl x.fst

/-- A stored (gradient-free) tensor entry, e.g. rewards and done flags. -/
def dconst (c : ℚ) : DQ := inl c

/--
`.view(num_steps + 1, num_processes, 1)` indexing (lines 107-108): entry
`(t, e)` of the reshaped tensor is flat entry `t * E + e` of the network
output on the flattened `(R+1)*E` observations.
-/
def reshape2 (E : Nat) (f : Nat → DQ) (t e : Nat) : DQ := f (t * E + e)

/--
`self.compute_returns(values)` as called from `update` (line 110): rewards and
dones are stored constant tensors, `values` is the gradient-carrying critic
output reshaped to `(R+1, E, 1)`; the recursion is elementwise per
environment `e`.
-/
def retDual (gamma : ℚ) (rewards dones : Nat → Nat → ℚ) (vFlat : Nat → DQ)
    (R E t e : Nat) : DQ :=
  computeReturns (dconst gamma) (fun s => dconst (rewards s e)) (fun s => dconst (dones s e))
    (fun s => reshape2 E vFlat s e) R t

/-- The rational-valued returns computed from the numeric values alone. -/
def retQ (gamma : ℚ) (rewards dones : Nat → Nat → ℚ) (vFlat : Nat → DQ)
    (R E t e : Nat) : ℚ :=
  computeReturns gamma (fun s => rewards s e) (fun s => dones s e)
    (fun s => dval (reshape2 E vFlat s e)) R t

/-- `advantages = self.returns[:-1].detach() - values[:-1]` (line 112), entry `(t, e)`. -/
def advantage (gamma : ℚ) (rewards dones : Nat → Nat → ℚ) (vFlat : Nat → DQ)
    (R E t e : Nat) : DQ :=
  detach (retDual gamma rewards dones vFlat R E t e) - reshape2 E vFlat t e

/-- `critic_loss = advantages.pow(2).mean()` (line 113): mean over the `R * E` slots. -/
def criticLoss (gamma : ℚ) (rewards dones : Nat → Nat → ℚ) (vFlat : Nat → DQ)
    (R E : Nat) : DQ :=
  ((R * E : ℕ) : ℚ)⁻¹ •
    ∑ t ∈ Finset.range R, ∑ e ∈ Finset.range E,
      advantage gamma rewards dones vFlat R E t e ^ 2

/-- `actor_loss = -(advantages.detach() * action_log_probs).mean()` (line 114). -/
def actorLoss (gamma : ℚ) (rewards dones : Nat → Nat → ℚ) (vFlat lpFlat : Nat → DQ)
    (R E : Nat) : DQ :=
  -(((R * E : ℕ) : ℚ)⁻¹ •
      ∑ t ∈ Finset.range R, ∑ e ∈ Finset.range E,
        detach (advantage gamma rewards dones vFlat R E t e) * reshape2 E lpFlat t e)

/--
`dist_entropy = dist.entropy()[:-1].mean()` (line 105): the per-sample
entropies of the distribution computed on the flattened `(R+1)*E`
observations; the slice drops exactly the one trailing element of the flat
vector, so the mean runs over `(R+1)*E - 1` samples.
-/
def entropyTerm (R E : Nat) (entFlat : Nat → DQ) : DQ :=
  (((R + 1) * E - 1 : ℕ) : ℚ)⁻¹ • ∑ i ∈ Finset.range ((R + 1) * E - 1), entFlat i

/--
`loss = actor_loss + self.critic_loss_weight * critic_loss -
self.entropy_loss_weight * dist_entropy` (line 116).
-/
def totalLoss (gamma wc we : ℚ) (rewards dones : Nat → Nat → ℚ)
    (vFlat lpFlat entFlat : Nat → DQ) (R E : Nat) : DQ :=
  actorLoss gamma rewards dones vFlat lpFlat R E
    + wc • criticLoss gamma rewards dones vFlat R E
    - we • entropyTerm R E entFlat

/--
Modelled from the spec's words, for comparison with the code in claim C6: the
entropy averaged over all but the last bootstrap time slot, i.e. over the
first `R` time slots across all `E` environments (`R * E` samples).
-/
def entropySpecMean (R E : Nat) (entFlat : Nat → ℚ) : ℚ :=
  ((R * E : ℕ) : ℚ)⁻¹ * ∑ t ∈ Finset.range R, ∑ e ∈ Finset.range E, entFlat (t * E + e)

/-- Concrete flat per-sample entropies refuting claim C6: zero everywhere
except entropy 6 at flat index 2, which is slot `(t, e) = (1, 0)` — the
bootstrap time slot of environment 0 when `R = 1`, `E = 2`. -/
def entEx : Nat → DQ := fun i => dconst (if i = 2 then 6 else 0)

/-- Done flags with an episode boundary at slot 1, for the claim C8 witness. -/
def exDonesB : Nat → ℚ := fun s => if s = 1 then 1 else 0

/-- One bootstrap-value assignment for the claim C8 witness. -/
def exValuesA : Nat → ℚ := fun _ => 100

/-- A different bootstrap-value assignment beyond the done boundary. -/
def exValuesB : Nat → ℚ := fun _ => 0

/-- Events of one `see` override, in execution order: the layer's own
bookkeeping versus the delegation to the base-class `see`. -/
inductive SeeEv where
  | ownWork
  | delegate
  deriving DecidableEq

/-- Statement order of `ReplayBufferAgent.see` (src/LRL/replayBuffer.py lines
33-35): line 34 runs `self.memorize(...)` — the layer's own bookkeeping —
and line 35 then delegates via `super().see(...)`. -/
def rbSeeOrder : List SeeEv := [SeeEv.ownWork, SeeEv.delegate]

/-- Statement order of `TargetQAgent.see` (src/LRL/targetDQN.py lines 28-32):
line 29 delegates via `super().see(...)` first; lines 31-32 then run the
layer's own sync check and possible `unfreeze`. -/
def tqSeeOrder : List SeeEv := [SeeEv.delegate, SeeEv.ownWork]

/-- Statement order of `A2C.see` (src/LRL/A2C.py lines 70-85): line 71
delegates via `super().see(...)` first; lines 73-85 then run the layer's own
rollout-buffer writes, step advance and conditional update. -/
def a2cSeeOrder : List SeeEv := [SeeEv.delegate, SeeEv.ownWork]

/-- The order asserted by claim C9: every own-bookkeeping event strictly
precedes every delegation event. -/
def OwnThenDelegate (tr : List SeeEv) : Prop :=
  ∀ i j : Fin tr.length, tr.get i = SeeEv.ownWork → tr.get j = SeeEv.delegate →
    (i : Nat) < (j : Nat)

/-- The opposite order: every delegation event strictly precedes every
own-bookkeeping event. -/
def DelegateThenOwn (tr : List SeeEv) : Prop :=
  ∀ i j : Fin tr.length, tr.get i = SeeEv.delegate → tr.get j = SeeEv.ownWork →
    (i : Nat) < (j : Nat)

/-- Variant of `TargetQAgent.see` in the order asserted by claim C9, for
comparison: the layer's own sync check runs first, on the pre-delegation
state, and only then the call delegates (frame advance and online update). -/
def tqSeeOwnFirst {P : Type} (targetUpdate numEnvs : Nat) (newOnline : P)
    (st : TQState P) : TQState P :=
  let st1 : TQState P := if st.frames % targetUpdate < numEnvs then unfreeze st else st
  ⟨st1.frames + numEnvs, newOnline, st1.target⟩

/--
Property of claim C5: the optimized loss assembles as
`actor + wc * critic - we * entropy` in both value and gradient; the critic
loss is the mean over the first `R` slots of `(returns - values)^2` with the
returns entering as a fixed (detached) target, so its gradient flows only
through the live values; the actor loss is minus the mean of the fully
detached advantage times the stored-action log-probabilities, so its gradient
flows only through the log-probabilities.
-/
def C5Prop (gamma wc we : ℚ) (rewards dones : Nat → Nat → ℚ)
    (vFlat lpFlat entFlat : Nat → DQ) (R E : Nat) : Prop :=
  (totalLoss gamma wc we rewards dones vFlat lpFlat entFlat R E
      = actorLoss gamma rewards dones vFlat lpFlat R E
        + wc • criticLoss gamma rewards dones vFlat R E
        - we • entropyTerm R E entFlat)
  ∧ (dval (totalLoss gamma wc we rewards dones vFlat lpFlat entFlat R E)
      = dval (actorLoss gamma rewards dones vFlat lpFlat R E)
        + wc * dval (criticLoss gamma rewards dones vFlat R E)
        - we * dval (entropyTerm R E entFlat))
  ∧ (dgrad (totalLoss gamma wc we rewards dones vFlat lpFlat entFlat R E)
      = dgrad (actorLoss gamma rewards dones vFlat lpFlat R E)
        + wc * dgrad (criticLoss gamma rewards dones vFlat R E)
        - we * dgrad (entropyTerm R E entFlat))
  ∧ (dval (criticLoss gamma rewards dones vFlat R E)
      = ((R * E : ℕ) : ℚ)⁻¹ *
          ∑ t ∈ Finset.range R, ∑ e ∈ Finset.range E,
            (retQ gamma rewards dones vFlat R E t e - dval (reshape2 E vFlat t e)) ^ 2)
  ∧ (dgrad (criticLoss gamma rewards dones vFlat R E)
      = ((R * E : ℕ) : ℚ)⁻¹ *
          ∑ t ∈ Finset.range R, ∑ e ∈ Finset.range E,
            -(2 * (retQ gamma rewards dones vFlat R E t e - dval (reshape2 E vFlat t e))
                * dgrad (reshape2 E vFlat t e)))
  ∧ (dval (actorLoss gamma rewards dones vFlat lpFlat R E)
      = -(((R * E : ℕ) : ℚ)⁻¹ *
            ∑ t ∈ Finset.range R, ∑ e ∈ Finset.range E,
              (retQ gamma rewards dones vFlat R E t e - dval (reshape2 E vFlat t e))
                * dval (reshape2 E lpFlat t e)))
  ∧ (dgrad (actorLoss gamma rewards dones vFlat lpFlat R E)
      = -(((R * E : ℕ) : ℚ)⁻¹ *
            ∑ t ∈ Finset.range R, ∑ e ∈ Finset.range E,
              (retQ gamma rewards dones vFlat R E t e - dval (reshape2 E vFlat t e))
                * dgrad (reshape2 E lpFlat t e)))

end LRL

namespace LRL

open TrivSqZeroExt

/-! ### Theorems about compute_returns -/

theorem computeReturns_last {R : Type} [CommRing R] (gamma : R) (rewards dones values : Nat → R)
    {T t : Nat} (h : T ≤ t) :
    computeReturns gamma rewards dones values T t = values T := by
  unfold computeReturns
  rw [Nat.sub_eq_zero_of_le h]
  rfl

theorem computeReturns_rec {R : Type} [CommRing R] (gamma : R) (rewards dones values : Nat → R)
    {T t : Nat} (h : t < T) :
    computeReturns gamma rewards dones values T t
      = computeReturns gamma rewards dones values T (t + 1) * gamma * (1 - dones (t + 1)) + rewards t := by
  unfold computeReturns
  have h1 : T - t = (T - (t + 1)) + 1 := by omega
  rw [h1]
  simp only [retD]
  have h2 : T - (T - (t + 1)) = t + 1 := by omega
  have h3 : T - ((T - (t + 1)) + 1) = t := by omega
  rw [h2, h3]

theorem computeReturns_discounted_sum {R : Type} [CommRing R] (gamma : R)
    (rewards dones values : Nat → R) (T : Nat) :
    ∀ t, t ≤ T → (∀ s, t < s → s ≤ T → dones s = 0) →
      computeReturns gamma rewards dones values T t
        = (∑ s ∈ Finset.Ico t T, gamma ^ (s - t) * rewards s) + gamma ^ (T - t) * values T := by
  have aux : ∀ n, n ≤ T → (∀ s, T - n < s → s ≤ T → dones s = 0) →
      computeReturns gamma rewards dones values T (T - n)
        = (∑ s ∈ Finset.Ico (T - n) T, gamma ^ (s - (T - n)) * rewards s)
            + gamma ^ n * values T := by
    intro n
    induction n with
    | zero =>
      intro _ _
      simp [computeReturns_last gamma rewards dones values (Nat.le_refl T)]
    | succ n ih =>
      intro hn hd
      have ht : T - (n + 1) < T := by omega
      have hsucc : T - (n + 1) + 1 = T - n := by omega
      rw [computeReturns_rec gamma rewards dones values ht, hsucc]
      rw [ih (by omega) (fun s hs1 hs2 => hd s (by omega) hs2)]
      rw [hd (T - n) (by omega) (by omega)]
      rw [Finset.sum_eq_sum_Ico_succ_bot ht, hsucc]
      have hpow : ∀ s, s ∈ Finset.Ico (T - n) T →
          gamma ^ (s - (T - (n + 1))) * rewards s = gamma ^ (s - (T - n)) * rewards s * gamma := by
        intro s hs
        rw [Finset.mem_Ico] at hs
        have hy : s - (T - (n + 1)) = (s - (T - n)) + 1 := by omega
        rw [hy, pow_succ]
        ring
      rw [Finset.sum_congr rfl hpow]
      have hz : T - (n + 1) - (T - (n + 1)) = 0 := by omega
      rw [hz]
      rw [← Finset.sum_mul]
      ring
  intro t ht hd
  have h1 : t = T - (T - t) := by omega
  have h2 : T - t ≤ T := by omega
  rw [h1] at hd ⊢
  rw [aux (T - t) h2 hd]
  have h3 : T - (T - t) = t := by omega
  rw [h3]

/-- Claim C1: `compute_returns` implements the backward recursion
`returns[T] = values[T]`; for `t` from `T-1` down to `0`,
`returns[t] = returns[t+1] * gamma * (1 - dones[t+1]) + rewards[t]`; with all
done flags zero it is the standard discounted sum with bootstrap, and the
hand-computed 3-step example (`rewards [1,1,1]`, bootstrap value `5`,
`gamma = 1/2`) comes out exactly, both with no done flag set and with the
final done flag set. -/
theorem C1_compute_returns (gamma : ℚ) (rewards dones values : Nat → ℚ) (T : Nat)
    (hT : 1 ≤ T) : C1Prop gamma rewards dones values T := by
  refine ⟨⟨computeReturns_last gamma rewards dones values (Nat.le_refl T),
      fun t ht => computeReturns_rec gamma rewards dones values ht⟩,
    fun t ht hd => computeReturns_discounted_sum gamma rewards dones values T t ht hd,
    ?_, ?_, ?_, ?_, ?_, ?_⟩
  all_goals norm_num [computeReturns, retD, exRewards, exDones0, exDonesLast, exValues]

/-- Witness for claim C1 at the concrete example input. -/
theorem C1_witness : 1 ≤ 3 ∧ C1Prop (1/2) exRewards exDones0 exValues 3 :=
  ⟨by norm_num, C1_compute_returns (1/2) exRewards exDones0 exValues 3 (by norm_num)⟩

/-! ### Theorems about the replay buffer -/

theorem add_mod_ne_of_lt (cap k j : Nat) (hj1 : 1 ≤ j) (hj2 : j < cap) :
    (k + j) % cap ≠ k % cap := by
  intro h
  have hcap : 0 < cap := by omega
  have ha : k % cap < cap := Nat.mod_lt k hcap
  rw [Nat.add_mod, Nat.mod_eq_of_lt hj2] at h
  rcases Nat.lt_or_ge (k % cap + j) cap with hlt | hge
  · rw [Nat.mod_eq_of_lt hlt] at h
    omega
  · rw [Nat.mod_eq_sub_mod hge, Nat.mod_eq_of_lt (by omega)] at h
    omega

theorem memFold_append {A : Type} (cap : Nat) (st : RBState A) (l : List A) (x : A) :
    memFold cap st (l ++ [x]) = bufferWrite cap (memFold cap st l) x := by
  simp [memFold, List.foldl_append]

theorem memFold_le {A : Type} (cap : Nat) (ts : List A) (h : ts.length ≤ cap) :
    memFold cap ⟨[], 0⟩ ts = ⟨ts, ts.length % cap⟩ := by
  induction ts using List.reverseRecOn with
  | nil => simp [memFold]
  | append_singleton l x ih =>
    have hl : l.length ≤ cap := by simp at h; omega
    have hlt : l.length < cap := by simp at h; omega
    rw [memFold_append, ih hl]
    simp only [bufferWrite, rbLength]
    rw [if_pos hlt]
    simp [Nat.mod_add_mod]

theorem memFold_full {A : Type} (cap : Nat) (hcap : 1 ≤ cap) :
    ∀ (k : Nat) (ts : List A), ts.length = cap + k →
      rbLength (memFold cap ⟨[], 0⟩ ts) = cap
      ∧ (memFold cap ⟨[], 0⟩ ts).pos = k % cap
      ∧ ∀ i, i < cap → (memFold cap ⟨[], 0⟩ ts).buffer[(k % cap + i) % cap]? = ts[k + i]? := by
  intro k
  induction k with
  | zero =>
    intro ts h
    rw [memFold_le cap ts (by omega)]
    refine ⟨h, by rw [h, Nat.add_zero, Nat.mod_self, Nat.zero_mod], ?_⟩
    intro i hi
    have hidx : (0 % cap + i) % cap = i := by
      rw [Nat.zero_mod, Nat.zero_add, Nat.mod_eq_of_lt hi]
    rw [hidx, Nat.zero_add]
  | succ k ih =>
    intro ts h
    have hne : ts ≠ [] := by
      intro he
      rw [he] at h
      simp at h
      omega
    obtain ⟨l, x, rfl⟩ : ∃ l x, ts = l ++ [x] :=
      ⟨ts.dropLast, ts.getLast hne, (List.dropLast_append_getLast hne).symm⟩
    have hl : l.length = cap + k := by
      simp at h
      omega
    obtain ⟨ihlen, ihpos, ihget⟩ := ih l hl
    have hfold : memFold cap (⟨[], 0⟩ : RBState A) (l ++ [x])
        = bufferWrite cap (memFold cap ⟨[], 0⟩ l) x :=
      memFold_append cap ⟨[], 0⟩ l x
    have hwrite : bufferWrite cap (memFold cap ⟨[], 0⟩ l) x
        = ⟨(memFold cap ⟨[], 0⟩ l).buffer.set (k % cap) x, ((k % cap) + 1) % cap⟩ := by
      rw [bufferWrite, if_neg (by omega), ihpos]
    rw [hfold, hwrite]
    refine ⟨?_, ?_, ?_⟩
    · simp only [rbLength, List.length_set]
      exact ihlen
    · simp only [Nat.mod_add_mod]
    · intro i hi
      simp only []
      have hbl : (memFold cap (⟨[], 0⟩ : RBState A) l).buffer.length = cap := ihlen
      have hidx : ((k + 1) % cap + i) % cap = (k + 1 + i) % cap := Nat.mod_add_mod (k + 1) cap i
      by_cases hlast : i = cap - 1
      · have h2 : (k + 1 + i) % cap = k % cap := by
          have h3 : k + 1 + i = k + cap := by omega
          rw [h3, Nat.add_mod_right]
        rw [hidx, h2]
        have hset : ((memFold cap (⟨[], 0⟩ : RBState A) l).buffer.set (k % cap) x)[k % cap]?
            = some x := by
          apply List.getElem?_set_eq_of_lt
          rw [hbl]
          exact Nat.mod_lt k (by omega)
        rw [hset]
        have hk1 : k + 1 + i = l.length := by omega
        rw [hk1, List.getElem?_concat_length]
      · have hilt : i < cap - 1 := by omega
        have hne2 : (k + 1 + i) % cap ≠ k % cap := by
          have h4 : k + 1 + i = k + (1 + i) := by omega
          rw [h4]
          exact add_mod_ne_of_lt cap k (1 + i) (by omega) (by omega)
        rw [hidx]
        have hset : ((memFold cap (⟨[], 0⟩ : RBState A) l).buffer.set (k % cap) x)[(k + 1 + i) % cap]?
            = (memFold cap (⟨[], 0⟩ : RBState A) l).buffer[(k + 1 + i) % cap]? := by
          apply List.getElem?_set_ne
          exact hne2.symm
        rw [hset]
        have hidx2 : (k % cap + (i + 1)) % cap = (k + 1 + i) % cap := by
          rw [Nat.mod_add_mod]
          congr 1
          omega
        have hmem := ihget (i + 1) (by omega)
        rw [hidx2] at hmem
        rw [hmem]
        have heq : k + (i + 1) = k + 1 + i := by omega
        rw [heq]
        have hlt2 : k + 1 + i < l.length := by omega
        exact (List.getElem?_append_left hlt2).symm

theorem memorizeAll_eq_memFold {S A : Type} (cap : Nat) :
    ∀ (inputs : List (RawInput S A)) (st : RBState (Transition S A)),
      memorizeAll cap st inputs = memFold cap st (inputs.map toStored) := by
  intro inputs
  induction inputs with
  | nil => intro st; rfl
  | cons i rest ih =>
    intro st
    simp only [memorizeAll, List.foldl_cons, List.map_cons, memFold]
    rw [← memorizeAll, ← memFold, ih]
    rfl

/-- Claim C2: after `capacity + k` calls to `memorize` (`k ≥ 1`) on an initially
empty `ReplayBufferAgent`, the occupancy equals `capacity` and the buffer holds
exactly the most recent `capacity` stored transitions in their original
temporal order starting from slot `pos`; single writes append while below
capacity and overwrite the slot at `pos` once full, advancing `pos`
circularly. -/
theorem C2_replay_buffer {S A : Type} (cap k : Nat) (hcap : 1 ≤ cap) (hk : 1 ≤ k)
    (inputs : List (RawInput S A)) (hlen : inputs.length = cap + k) :
    C2Prop cap k inputs := by
  have hmap : (inputs.map toStored).length = cap + k := by
    rw [List.length_map]
    exact hlen
  obtain ⟨h1, h2, h3⟩ := memFold_full cap hcap k (inputs.map toStored) hmap
  rw [C2Prop, memorizeAll_eq_memFold]
  refine ⟨⟨h1, h2, ?_⟩, ?_, ?_⟩
  · intro i hi
    rw [h2]
    exact h3 i hi
  · intro st x hlt
    rw [bufferWrite, if_pos hlt]
  · intro st x hge
    rw [bufferWrite, if_neg hge]

/-- Witness for claim C2: capacity 2, three memorizations. -/
theorem C2_witness :
    (1 ≤ 2 ∧ 1 ≤ 1
      ∧ ([((1 : ℕ), (1 : ℕ), (1 : ℚ), (1 : ℕ), false, false), (2, 2, 2, 2, false, false),
          (3, 3, 3, 3, false, false)] : List (RawInput ℕ ℕ)).length = 2 + 1)
    ∧ C2Prop 2 1
        ([((1 : ℕ), (1 : ℕ), (1 : ℚ), (1 : ℕ), false, false), (2, 2, 2, 2, false, false),
          (3, 3, 3, 3, false, false)] : List (RawInput ℕ ℕ)) :=
  ⟨⟨by norm_num, by norm_num, by norm_num⟩,
    C2_replay_buffer 2 1 (by norm_num) (by norm_num) _ (by norm_num)⟩

/-- Claim C7: `sample` fails with the insufficient-data error exactly when
`batch_size` exceeds the occupancy; otherwise, for any index list meeting the
contract of `random.sample` (distinct in-range indices), it returns
`batch_size` transitions, a weights vector of `batch_size` ones, and leaves
the buffer state unchanged. -/
theorem C7_sample {A : Type} (st : RBState A) (batchSize : Nat) (pick : List Nat) (x0 : A) :
    C7Prop st batchSize pick x0 := by
  constructor
  · constructor
    · intro h
      by_contra hge
      rw [sample, if_neg hge] at h
      exact Except.noConfusion h
    · intro h
      rw [sample, if_pos h]
  · intro hvalid hle
    obtain ⟨hlen, hnodup, hbound⟩ := hvalid
    refine ⟨?_, ?_, hnodup, hbound, List.length_replicate _ _, ?_⟩
    · rw [sample, if_neg (by omega)]
    · rw [List.length_map]
      exact hlen
    · intro w hw
      exact (List.eq_of_mem_replicate hw)

/-- Witness for claim C7: buffer `[5, 6, 7]`, batch size 2, picked indices `[2, 0]`. -/
theorem C7_witness :
    ValidPick [2, 0] (rbLength (⟨[5, 6, 7], 0⟩ : RBState ℕ)) 2
    ∧ 2 ≤ rbLength (⟨[5, 6, 7], 0⟩ : RBState ℕ)
    ∧ C7Prop (⟨[5, 6, 7], 0⟩ : RBState ℕ) 2 [2, 0] 0 :=
  ⟨⟨rfl, by decide, by decide⟩, by decide, C7_sample ⟨[5, 6, 7], 0⟩ 2 [2, 0] 0⟩

/-- Claim C10: the sixth argument `died` of `memorize` and `see` is accepted at
the interface but never stored: the transition written into the buffer is
exactly the 5-tuple `(expand_dims state, action, reward, expand_dims
next_state, done)`, so the buffer contents after any sequence of calls depend
only on those five components. -/
theorem C10_died_not_stored {S A B : Type} (cap : Nat)
    (baseSee : S → A → ℚ → S → Bool → Bool → B → B) :
    (∀ (st : RBState (Transition S A)) (state : S) (action : A) (reward : ℚ)
        (next_state : S) (done died : Bool),
      memorize cap st state action reward next_state done died
        = bufferWrite cap st ⟨expandDims state, action, reward, expandDims next_state, done⟩)
    ∧ (∀ (st : RBState (Transition S A)) (state : S) (action : A) (reward : ℚ)
        (next_state : S) (done died1 died2 : Bool),
      memorize cap st state action reward next_state done died1
        = memorize cap st state action reward next_state done died2)
    ∧ (∀ (st : RBState (Transition S A) × B) (state : S) (action : A) (reward : ℚ)
        (next_state : S) (done died : Bool),
      (rbSee cap baseSee st state action reward next_state done died).1
        = memorize cap st.1 state action reward next_state done died)
    ∧ (∀ (st : RBState (Transition S A)) (inputs : List (RawInput S A)),
       memorizeAll cap st inputs = memFold cap st (inputs.map toStored)) :=
  ⟨fun _ _ _ _ _ _ _ => rfl,
   fun _ _ _ _ _ _ _ _ => rfl,
   fun _ _ _ _ _ _ _ => rfl,
   fun st inputs => memorizeAll_eq_memFold cap inputs st⟩

/-! ### Theorems about the target-network layer -/

theorem nminus_mul_add (n E : Nat) (hn : 1 ≤ n) : (n - 1) * E + E = n * E := by
  have h5 : n - 1 + 1 = n := Nat.succ_pred_eq_of_pos hn
  calc (n - 1) * E + E = ((n - 1) + 1) * E := (Nat.succ_mul (n - 1) E).symm
  _ = n * E := by rw [h5]

theorem tq_fire_iff (U E : Nat) (hU : 1 ≤ U) (hE : 1 ≤ E) (n : Nat) (hn : 1 ≤ n) :
    (n * E) % U < E ↔ ∃ m, 1 ≤ m ∧ (n - 1) * E < m * U ∧ m * U ≤ n * E := by
  have hB := nminus_mul_add n E hn
  have hEn : E ≤ n * E := Nat.le_mul_of_pos_left E hn
  constructor
  · intro h
    have hdml := Nat.div_mul_le_self (n * E) U
    have hmod := Nat.div_add_mod' (n * E) U
    have hq : 1 ≤ n * E / U := by
      by_contra h0
      have h00 : n * E / U = 0 := Nat.lt_one_iff.mp (Nat.lt_of_not_le h0)
      rw [h00, Nat.zero_mul, Nat.zero_add] at hmod
      linarith
    exact ⟨n * E / U, hq, by linarith, hdml⟩
  · rintro ⟨m, hm1, hm2, hm3⟩
    have hsub : (n * E - U * m) % U = n * E % U := Nat.sub_mul_mod (by rw [Nat.mul_comm]; exact hm3)
    have hle : (n * E - U * m) % U ≤ n * E - U * m := Nat.mod_le _ _
    have hUm : U * m = m * U := Nat.mul_comm U m
    rw [hUm] at hsub hle
    rw [hsub] at hle
    have hcancel : n * E - m * U + m * U = n * E := Nat.sub_add_cancel hm3
    linarith

theorem tq_unique_crossing (U E : Nat) (hU : 1 ≤ U) (hE : 1 ≤ E) (m : Nat) (hm : 1 ≤ m) :
    ∃! n, 1 ≤ n ∧ (n - 1) * E < m * U ∧ m * U ≤ n * E := by
  have hmU : 1 ≤ m * U := Nat.mul_le_mul hm hU
  have hdle : (m * U - 1) / E * E ≤ m * U - 1 := Nat.div_mul_le_self _ _
  have hmod := Nat.div_add_mod' (m * U - 1) E
  have hr : (m * U - 1) % E < E := Nat.mod_lt _ (by omega)
  have hexp : ((m * U - 1) / E + 1) * E = (m * U - 1) / E * E + E := Nat.succ_mul _ _
  have hone : m * U - 1 + 1 = m * U := Nat.succ_pred_eq_of_pos hmU
  have key2 : m * U ≤ ((m * U - 1) / E + 1) * E := by linarith
  refine ⟨(m * U - 1) / E + 1, ⟨Nat.succ_le_succ (Nat.zero_le _), ?_, key2⟩, ?_⟩
  · rw [Nat.add_sub_cancel]
    linarith
  · rintro n2 ⟨hn2, h2a, h2b⟩
    by_contra hne
    rcases Nat.lt_or_ge n2 ((m * U - 1) / E + 1) with hlt | hge
    · have hle2 : n2 ≤ (m * U - 1) / E := Nat.lt_succ_iff.mp hlt
      have hmul : n2 * E ≤ (m * U - 1) / E * E := Nat.mul_le_mul_right E hle2
      linarith
    · have hlt2 : (m * U - 1) / E + 1 < n2 := Nat.lt_of_le_of_ne hge (Ne.symm hne)
      have hle2 : (m * U - 1) / E + 1 ≤ n2 - 1 := Nat.le_pred_of_lt hlt2
      have hmul : ((m * U - 1) / E + 1) * E ≤ (n2 - 1) * E := Nat.mul_le_mul_right E hle2
      linarith

/-- Claim C3: with frames advancing by `num_envs` per `see` call, the hard-sync
condition `frames_done % target_update < num_envs` fires exactly once per
crossing of each multiple of `target_update`, even when frames advance in
batches; immediately after it fires the target parameters equal the online
parameters, and a call that does not fire leaves the target fixed while the
online parameters change. -/
theorem C3_target_sync (U E : Nat) (hU : 1 ≤ U) (hE : 1 ≤ E) : C3Prop U E := by
  refine ⟨fun n hn => tq_fire_iff U E hU hE n hn,
    fun m hm => tq_unique_crossing U E hU hE m hm, ?_, ?_⟩
  · intro P p q r n hn
    have hB := nminus_mul_add n E hn
    simp only [tqSee, unfreeze]
    rw [hB]
  · intro P ps
    induction ps with
    | nil => intro st _; rfl
    | cons p rest ih =>
      intro st hno
      rw [tqRun, List.foldl_cons, ← tqRun]
      have h0 := hno 0 (by simp)
      rw [Nat.one_mul] at h0
      have hsee : tqSee U E p st = ⟨st.frames + E, p, st.target⟩ := by
        simp only [tqSee]
        rw [if_neg h0]
      rw [hsee]
      have hrec := ih ⟨st.frames + E, p, st.target⟩ ?_
      · exact hrec
      · intro i hi
        have hcall := hno (i + 1) (by simp only [List.length_cons]; omega)
        have hm2 : (i + 1 + 1) * E = (i + 1) * E + E := Nat.succ_mul _ _
        have heq : st.frames + (i + 1 + 1) * E = st.frames + E + (i + 1) * E := by omega
        rw [heq] at hcall
        exact hcall

/-- Witness for claim C3 at `target_update = 2`, `num_envs = 1`. -/
theorem C3_witness : 1 ≤ 2 ∧ 1 ≤ 1 ∧ C3Prop 2 1 :=
  ⟨by norm_num, by norm_num, C3_target_sync 2 1 (by norm_num) (by norm_num)⟩

/-! ### Theorems about the A2C rollout cycle -/

/-- Claim C4: from `step = 0`, after exactly `rollout` calls to `see` exactly
one `update()` has run, the step counter is back at 0, and each of the
`actor_loss`, `critic_loss`, `entropy_loss` logger channels gained exactly one
entry; `update` runs inside `see` precisely when `step` wraps to 0. -/
theorem C4_rollout_cycle (R : Nat) (hR : 1 ≤ R) (losses : Nat → ℚ × ℚ × ℚ)
    (st : A2CState) (hstep : st.step = 0) : C4Prop R losses st := by
  have haux : ∀ n, n < R → a2cRun R losses st n = { st with step := n } := by
    intro n
    induction n with
    | zero =>
      intro _
      cases st with
      | mk s u a c e =>
        have hs : s = 0 := hstep
        subst hs
        rfl
    | succ n ih =>
      intro hn
      rw [a2cRun, ih (by omega)]
      have h1 : (n + 1) % R = n + 1 := Nat.mod_eq_of_lt hn
      simp [a2cSee, h1]
  have hfinal : a2cRun R losses st R = a2cUpdate losses { st with step := 0 } := by
    obtain ⟨S, rfl⟩ : ∃ S, R = S + 1 := ⟨R - 1, by omega⟩
    rw [a2cRun, haux S (by omega)]
    simp [a2cSee, Nat.mod_self]
  refine ⟨haux, ?_, ?_, ?_, ?_, ?_, ?_⟩
  · rw [hfinal]; rfl
  · rw [hfinal]; rfl
  · rw [hfinal]; rfl
  · rw [hfinal]; rfl
  · rw [hfinal]; rfl
  · intro st2
    by_cases h : (st2.step + 1) % R = 0
    · simp [a2cSee, a2cUpdate, h]
    · simp [a2cSee, h]

/-- Witness for claim C4 at rollout 2 from a fresh state. -/
theorem C4_witness :
    1 ≤ 2 ∧ A2CState.step ⟨0, 0, [], [], []⟩ = 0
    ∧ C4Prop 2 (fun _ => (1, 2, 3)) ⟨0, 0, [], [], []⟩ :=
  ⟨by norm_num, rfl, C4_rollout_cycle 2 (by norm_num) (fun _ => (1, 2, 3)) ⟨0, 0, [], [], []⟩ rfl⟩

/-! ### Dual-number facts used for the A2C loss -/

@[simp] theorem dval_add (x y : DQ) : dval (x + y) = dval x + dval y := fst_add x y

@[simp] theorem dval_sub (x y : DQ) : dval (x - y) = dval x - dval y := fst_sub x y

@[simp] theorem dval_neg (x : DQ) : dval (-x) = -dval x := fst_neg x

@[simp] theorem dval_mul (x y : DQ) : dval (x * y) = dval x * dval y := fst_mul x y

@[simp] theorem dval_smul (c : ℚ) (x : DQ) : dval (c • x) = c * dval x := by
  rw [dval, fst_smul, smul_eq_mul]
  rfl

@[simp] theorem dval_detach (x : DQ) : dval (detach x) = dval x := rfl

@[simp] theorem dval_dconst (c : ℚ) : dval (dconst c) = c := rfl

@[simp] theorem dval_sq (x : DQ) : dval (x ^ 2) = dval x ^ 2 := by
  rw [pow_two, pow_two, dval_mul]

@[simp] theorem dval_sum {I : Type} (s : Finset I) (f : I → DQ) :
    dval (∑ i ∈ s, f i) = ∑ i ∈ s, dval (f i) :=
  map_sum (fstHom ℚ ℚ ℚ).toRingHom.toAddMonoidHom f s

@[simp] theorem dgrad_add (x y : DQ) : dgrad (x + y) = dgrad x + dgrad y := snd_add x y

@[simp] theorem dgrad_sub (x y : DQ) : dgrad (x - y) = dgrad x - dgrad y := snd_sub x y

@[simp] theorem dgrad_neg (x : DQ) : dgrad (-x) = -dgrad x := snd_neg x

@[simp] theorem dgrad_mul (x y : DQ) : dgrad (x * y) = dval x * dgrad y + dval y * dgrad x := by
  rw [dgrad, snd_mul]
  simp [dval, dgrad, smul_eq_mul]
  ring

@[simp] theorem dgrad_smul (c : ℚ) (x : DQ) : dgrad (c • x) = c * dgrad x := by
  rw [dgrad, snd_smul, smul_eq_mul]
  rfl

@[simp] theorem dgrad_detach (x : DQ) : dgrad (detach x) = 0 := rfl

@[simp] theorem dgrad_dconst (c : ℚ) : dgrad (dconst c) = 0 := rfl

@[simp] theorem dgrad_sq (x : DQ) : dgrad (x ^ 2) = 2 * dval x * dgrad x := by
  rw [pow_two, dgrad_mul]
  ring

@[simp] theorem dgrad_sum {I : Type} (s : Finset I) (f : I → DQ) :
    dgrad (∑ i ∈ s, f i) = ∑ i ∈ s, dgrad (f i) :=
  map_sum (sndHom ℚ ℚ).toAddMonoidHom f s

theorem retD_map {A B : Type} [CommRing A] [CommRing B] (f : A →+* B)
    (gamma : A) (rewards dones values : Nat → A) (T k : Nat) :
    f (retD gamma rewards dones values T k)
      = retD (f gamma) (fun s => f (rewards s)) (fun s => f (dones s)) (fun s => f (values s)) T k := by
  induction k with
  | zero => rfl
  | succ k ih =>
    simp only [retD, map_add, map_mul, map_sub, map_one, ih]

theorem computeReturns_map {A B : Type} [CommRing A] [CommRing B] (f : A →+* B)
    (gamma : A) (rewards dones values : Nat → A) (T t : Nat) :
    f (computeReturns gamma rewards dones values T t)
      = computeReturns (f gamma) (fun s => f (rewards s)) (fun s => f (dones s))
          (fun s => f (values s)) T t :=
  retD_map f gamma rewards dones values T (T - t)

theorem dval_retDual (gamma : ℚ) (rewards dones : Nat → Nat → ℚ) (vFlat : Nat → DQ)
    (R E t e : Nat) :
    dval (retDual gamma rewards dones vFlat R E t e) = retQ gamma rewards dones vFlat R E t e :=
  computeReturns_map (fstHom ℚ ℚ ℚ).toRingHom (dconst gamma) (fun s => dconst (rewards s e))
    (fun s => dconst (dones s e)) (fun s => reshape2 E vFlat s e) R t

/-- Claim C5: the optimized loss equals
`actor_loss + critic_loss_weight * critic_loss - entropy_loss_weight * entropy`
where the critic loss is the mean over the first `rollout` time slots of
`(returns - values)^2` with returns entering as a fixed (detached) target —
its gradient flows only through the live value estimates — and the actor loss
is minus the mean of the fully detached advantage times the log-probabilities
of the stored actions — its gradient flows only through the
log-probabilities. -/
theorem C5_update_loss (gamma wc we : ℚ) (rewards dones : Nat → Nat → ℚ)
    (vFlat lpFlat entFlat : Nat → DQ) (R E : Nat) :
    C5Prop gamma wc we rewards dones vFlat lpFlat entFlat R E := by
  refine ⟨rfl, ?_, ?_, ?_, ?_, ?_, ?_⟩
  · simp [totalLoss]
  · simp [totalLoss]
  · simp only [criticLoss, dval_smul, dval_sum, dval_sq, advantage, dval_sub, dval_detach,
      dval_retDual]
  · simp only [criticLoss, dgrad_smul, dgrad_sum, dgrad_sq, advantage, dgrad_sub, dgrad_detach,
      dval_sub, dval_detach, dval_retDual]
    congr 1
    apply Finset.sum_congr rfl
    intro t _
    apply Finset.sum_congr rfl
    intro e _
    ring
  · simp only [actorLoss, dval_neg, dval_smul, dval_sum, dval_mul, dval_detach, advantage,
      dval_sub, dval_retDual]
  · simp only [actorLoss, dgrad_neg, dgrad_smul, dgrad_sum, dgrad_mul, dgrad_detach, dval_detach,
      advantage, dval_sub, dval_retDual, mul_zero, add_zero]

/-- Claim C6 fails on the code: `dist.entropy()[:-1]` slices the flat
`(R+1)*E`-sample entropy vector, dropping only one sample instead of the whole
bootstrap time slot.  With `rollout R = 1`, `num_envs E = 2` and per-sample
entropies `(0, 0, 6, ·)` (flat slot 2 is bootstrap slot `(t, e) = (1, 0)`),
the code's term averages 3 samples and yields 2, while the claimed mean over
the `R * E = 2` non-bootstrap samples yields 0. -/
theorem C6_entropy_slice_bug :
    dval (entropyTerm 1 2 entEx) = 2
    ∧ entropySpecMean 1 2 (fun i => dval (entEx i)) = 0
    ∧ dval (entropyTerm 1 2 entEx) ≠ entropySpecMean 1 2 (fun i => dval (entEx i)) := by
  have h1 : dval (entropyTerm 1 2 entEx) = 2 := by
    norm_num [entropyTerm, dval, dconst, entEx, Finset.sum_range_succ, fst_smul]
  have h2 : entropySpecMean 1 2 (fun i => dval (entEx i)) = 0 := by
    norm_num [entropySpecMean, dval, dconst, entEx, Finset.sum_range_succ]
  exact ⟨h1, h2, by rw [h1, h2]; norm_num⟩

/-! ### Episode-boundary masking -/

/-- Claim C8: when `dones[t+1] = 1`, `returns[t]` contains no contribution
from `returns[t+1]`: two runs of `compute_returns` that agree on rewards up to
slot `t` and done flags up to slot `t+1` (where the flag is set) produce
identical returns at slot `t` and at every earlier slot, whatever the
bootstrap values, rewards and dones beyond the boundary are. -/
theorem C8_done_boundary (gamma : ℚ) (r1 d1 v1 r2 d2 v2 : Nat → ℚ) (T t : Nat)
    (hT : t < T) (hdone1 : d1 (t + 1) = 1) (hdone2 : d2 (t + 1) = 1)
    (hr : ∀ s, s ≤ t → r1 s = r2 s) (hd : ∀ s, s ≤ t + 1 → d1 s = d2 s) :
    ∀ s, s ≤ t → computeReturns gamma r1 d1 v1 T s = computeReturns gamma r2 d2 v2 T s := by
  have aux : ∀ k, k ≤ t →
      computeReturns gamma r1 d1 v1 T (t - k) = computeReturns gamma r2 d2 v2 T (t - k) := by
    intro k
    induction k with
    | zero =>
      intro _
      simp only [Nat.sub_zero]
      rw [computeReturns_rec gamma r1 d1 v1 hT, computeReturns_rec gamma r2 d2 v2 hT]
      rw [hdone1, hdone2, hr t (Nat.le_refl t)]
      ring
    | succ k ih =>
      intro hk
      have hs : t - (k + 1) < T := by omega
      rw [computeReturns_rec gamma r1 d1 v1 hs, computeReturns_rec gamma r2 d2 v2 hs]
      have h1 : t - (k + 1) + 1 = t - k := by omega
      rw [h1, ih (by omega), hd (t - k) (by omega), hr (t - (k + 1)) (by omega)]
  intro s hs
  have h2 := aux (t - s) (by omega)
  have h3 : t - (t - s) = s := by omega
  rw [h3] at h2
  exact h2

/-- Witness for claim C8: boundary at slot 1, bootstrap values 100 versus 0. -/
theorem C8_witness :
    (0 < 2 ∧ exDonesB (0 + 1) = 1)
    ∧ ∀ s, s ≤ 0 →
        computeReturns (1/2) exRewards exDonesB exValuesA 2 s
          = computeReturns (1/2) exRewards exDonesB exValuesB 2 s :=
  ⟨⟨by norm_num, by norm_num [exDonesB]⟩,
   C8_done_boundary (1/2) exRewards exDonesB exValuesA exRewards exDonesB exValuesB 2 0
     (by norm_num) (by norm_num [exDonesB]) (by norm_num [exDonesB])
     (fun s _ => rfl) (fun s _ => rfl)⟩

/-! ### Ordering of the see overrides -/

/-- Claim C9 is false on the code: `TargetQAgent.see` and `A2C.see` delegate
to `super().see` before their own bookkeeping, and running the sync check
before instead of after delegation changes the observable target parameters
(here at `target_update = 2`, `num_envs = 1`, one call from frames 0 with
online parameter 1 and stale target 0). -/
theorem C9_counterexample :
    ¬ OwnThenDelegate tqSeeOrder
    ∧ ¬ OwnThenDelegate a2cSeeOrder
    ∧ tqSee 2 1 (1 : ℕ) ⟨0, 1, 0⟩ ≠ tqSeeOwnFirst 2 1 (1 : ℕ) ⟨0, 1, 0⟩ := by
  refine ⟨?_, ?_, ?_⟩
  · intro h
    have h2 := h ⟨1, by norm_num [tqSeeOrder]⟩ ⟨0, by norm_num [tqSeeOrder]⟩ rfl rfl
    simp at h2
  · intro h
    have h2 := h ⟨1, by norm_num [a2cSeeOrder]⟩ ⟨0, by norm_num [a2cSeeOrder]⟩ rfl rfl
    simp at h2
  · decide

/-- Amended claim C9: `ReplayBufferAgent.see` performs its own bookkeeping
(`memorize`) before delegating, but `TargetQAgent.see` and `A2C.see` delegate
to the base-class `see` first and perform their own bookkeeping afterwards; in
particular the target-sync check reads the frame counter already advanced by
the delegated call. -/
theorem C9_amended_order :
    OwnThenDelegate rbSeeOrder
    ∧ DelegateThenOwn tqSeeOrder
    ∧ DelegateThenOwn a2cSeeOrder
    ∧ (∀ (P : Type) (U E : Nat) (p : P) (st : TQState P),
        tqSee U E p st
          = if (st.frames + E) % U < E
              then unfreeze ⟨st.frames + E, p, st.target⟩
              else ⟨st.frames + E, p, st.target⟩) := by
  refine ⟨?_, ?_, ?_, fun P U E p st => rfl⟩
  · unfold OwnThenDelegate
    decide
  · unfold DelegateThenOwn
    decide
  · unfold DelegateThenOwn
    decide
